import Mathlib

/-!
Subscriber registry and connection lifecycle of `internal/api/api.go`.

A shallow embedding of the WebSocket subscriber registry of the message board
server (`apiHandler.subscribers`, `notifyClients`, `handleSubscribe`) together
with the properties of it that the design document states.

Modelling conventions:

* A Go `map[K]V` is an association list without duplicate keys (`AList`).  The
  order of the entries stands for the iteration order of the map, which Go
  leaves unspecified: every theorem below holds for every order.
* A `*websocket.Conn` is identified by a natural number (its address); a
  `context.CancelFunc` is identified by the number of the context it cancels.
* Whether `conn.WriteJSON` fails is decided by the peer and the network, so it
  is a parameter `fails : Conn → Bool` of `notifyClients`.
* Effects (mutex operations, network writes, cancellations, map updates) are
  recorded in the order in which the code performs them, as a list of `Event`s.
-/

namespace Api

/-- The room identifier used as key of `apiHandler.subscribers`. -/
abbrev RoomID := String

/-- Identity of a `*websocket.Conn`. -/
abbrev Conn := Nat

/-- Identity of a `context.CancelFunc`. -/
abbrev CancelFunc := Nat

/-- The inner map `map[*websocket.Conn]context.CancelFunc` of one room. -/
abbrev SubscriberSet := AList (fun _ : Conn => CancelFunc)

/-- The field `subscribers map[string]map[*websocket.Conn]context.CancelFunc`. -/
abbrev Registry := AList (fun _ : RoomID => SubscriberSet)

/-- A decoded JSON value (`interface{}` as produced by `encoding/json`). -/
inductive JsonValue where
  | null : JsonValue
  | bool : Bool → JsonValue
  | number : Int → JsonValue
  | str : String → JsonValue
  | arr : List JsonValue → JsonValue
  | obj : List (String × JsonValue) → JsonValue

/-- A Go value as `encoding/json` sees it: `nil`, a boolean, an integer, a
string, a slice, a struct given by its exported fields in the order of
declaration, each under the name of its `json` tag, or a value of a kind that
`encoding/json` refuses (a channel, a function, a complex number). -/
inductive GoValue where
  | null : GoValue
  | bool : Bool → GoValue
  | int : Int → GoValue
  | str : String → GoValue
  | slice : List GoValue → GoValue
  | struct : List (String × GoValue) → GoValue
  | unsupported : GoValue

/-- The struct `Message` that is broadcast to the subscribers of a room; the
field `Value` has the type `any`. -/
structure Message where
  Kind : String
  Value : GoValue
  RoomID : String

/-- What `notifyClients` does, in program order. -/
inductive Event where
  /-- `h.mu.Lock()` -/
  | lock : Event
  /-- `h.mu.Unlock()` (the deferred call) -/
  | unlock : Event
  /-- `h.subscribers[msg.RoomID]` -/
  | lookup : RoomID → Event
  /-- `conn.WriteJSON(msg)` -/
  | writeJSON : Conn → Message → Event
  /-- `cancel()` -/
  | cancel : CancelFunc → Event
  /-- `delete(subscribers, conn)` -/
  | delete : Conn → Event

/-- `len(m)` of an inner map. -/
def len (s : SubscriberSet) : Nat := s.entries.length

/-- `h.subscribers[room]` read as a value: a missing key yields the nil map,
which behaves as the empty map for `len`, `range` and `delete`. -/
def subscribersOf (h : Registry) (room : RoomID) : SubscriberSet :=
  (h.lookup room).getD ∅

/-- The first loop of `notifyClients` (lines 129-134): every subscriber is
written to; a failed write appends the connection to `failedConns` and calls its
cancel function.  Returns `failedConns` and the events performed. -/
def writeLoop (fails : Conn → Bool) (msg : Message) :
    List (Sigma fun _ : Conn => CancelFunc) → List Conn → List Event → List Conn × List Event
  | [], failedConns, tr => (failedConns, tr)
  | ⟨conn, cancel⟩ :: rest, failedConns, tr =>
    if fails conn then
      writeLoop fails msg rest (failedConns ++ [conn])
        (tr ++ [Event.writeJSON conn msg, Event.cancel cancel])
    else
      writeLoop fails msg rest failedConns (tr ++ [Event.writeJSON conn msg])

/-- The second loop of `notifyClients` (lines 135-137):
`delete(subscribers, conn)` for every failed connection. -/
def deleteLoop : List Conn → SubscriberSet → List Event → SubscriberSet × List Event
  | [], subscribers, tr => (subscribers, tr)
  | conn :: rest, subscribers, tr =>
    deleteLoop rest (subscribers.erase conn) (tr ++ [Event.delete conn])

/-- The result of one call of `notifyClients`: the registry afterwards and the
events performed, oldest first. -/
structure NotifyResult where
  subscribers : Registry
  trace : List Event

/-- `apiHandler.notifyClients` (lines 115-138).  The inner map is a reference,
so the deletions of the second loop update the entry of the room in place; the
key of the room is never removed here. -/
def notifyClients (fails : Conn → Bool) (h : Registry) (msg : Message) : NotifyResult :=
  let tr := [Event.lock, Event.lookup msg.RoomID]
  match h.lookup msg.RoomID with
  | none => ⟨h, tr ++ [Event.unlock]⟩
  | some subscribers =>
    if len subscribers = 0 then ⟨h, tr ++ [Event.unlock]⟩
    else
      let w := writeLoop fails msg subscribers.entries [] tr
      let d := deleteLoop w.1 subscribers w.2
      ⟨h.replace msg.RoomID d.1, d.2 ++ [Event.unlock]⟩

/-- The registration block of `handleSubscribe` (lines 167-175). -/
def subscribe (h : Registry) (rawRoomID : RoomID) (c : Conn) (cancel : CancelFunc) : Registry :=
  let h1 := if rawRoomID ∈ h then h else h.insert rawRoomID ∅
  h1.replace rawRoomID ((subscribersOf h1 rawRoomID).insert c cancel)

/-- The deferred cleanup of `handleSubscribe` (lines 178-189). -/
def unsubscribe (h : Registry) (rawRoomID : RoomID) (c : Conn) : Registry :=
  let h1 :=
    match h.lookup rawRoomID with
    | none => h
    | some subscribers => h.replace rawRoomID (subscribers.erase c)
  if len (subscribersOf h1 rawRoomID) = 0 then h1.erase rawRoomID else h1

/-- `NewHandler`: the registry starts as an empty map. -/
def newRegistry : Registry := ∅

/-- One operation on the registry: a connection registers, a connection runs its
deferred cleanup, or an event is broadcast (with the given outcome of the
writes). -/
inductive Op where
  | subscribe : RoomID → Conn → CancelFunc → Op
  | unsubscribe : RoomID → Conn → Op
  | notify : (Conn → Bool) → Message → Op

/-- The registry after one operation. -/
def step (h : Registry) : Op → Registry
  | Op.subscribe room c cancel => subscribe h room c cancel
  | Op.unsubscribe room c => unsubscribe h room c
  | Op.notify fails msg => (notifyClients fails h msg).subscribers

/-- The registry after a sequence of operations, starting from `h`. -/
def runFrom (h : Registry) (ops : List Op) : Registry := ops.foldl step h

/-- The registry after a sequence of operations on a new handler. -/
def run (ops : List Op) : Registry := runFrom newRegistry ops

/-- A broadcast in which the room has subscribers and the write to every one of
them fails. -/
def allWritesFail (fails : Conn → Bool) (h : Registry) (msg : Message) : Bool :=
  decide (len (subscribersOf h msg.RoomID) ≠ 0) && (subscribersOf h msg.RoomID).keys.all fails

/-- No broadcast of the sequence, run from `h`, loses every write. -/
def noTotalFailure : Registry → List Op → Bool
  | _, [] => true
  | h, Op.notify fails msg :: ops =>
    !allWritesFail fails h msg && noTotalFailure (step h (Op.notify fails msg)) ops
  | h, Op.subscribe room c cancel :: ops =>
    noTotalFailure (step h (Op.subscribe room c cancel)) ops
  | h, Op.unsubscribe room c :: ops => noTotalFailure (step h (Op.unsubscribe room c)) ops

/-- Every key of the registry maps to a non-empty inner map. -/
def NoEmptyRoom (h : Registry) : Prop :=
  ∀ r s, h.lookup r = some s → len s ≠ 0

/-- `N` registrations for the same room, one per handle, in the order given. -/
def subscribeAll (h : Registry) (room : RoomID) (handles : List (Conn × CancelFunc)) : Registry :=
  handles.foldl (fun h p => subscribe h room p.1 p.2) h

/-- The connections written to by `conn.WriteJSON`, in order. -/
def writesOf (tr : List Event) : List Conn :=
  tr.filterMap fun e => match e with
    | Event.writeJSON c _ => some c
    | _ => none

/-- The cancel functions called, in order. -/
def cancelsOf (tr : List Event) : List CancelFunc :=
  tr.filterMap fun e => match e with
    | Event.cancel f => some f
    | _ => none

/-- The events of one iteration of the first loop of `notifyClients`. -/
def writeEvents (fails : Conn → Bool) (msg : Message)
    (e : Sigma fun _ : Conn => CancelFunc) : List Event :=
  if fails e.1 then [Event.writeJSON e.1 msg, Event.cancel e.2] else [Event.writeJSON e.1 msg]

/-- The operations of the counterexamples: one connection subscribes to room
`r1`, then an event is broadcast to `r1` and the write to that connection
fails. -/
def lostSubscriber : List Op :=
  [Op.subscribe "r1" 1 1, Op.notify (fun _ => true) ⟨"message_created", GoValue.null, "r1"⟩]

/-- The operations of the witnesses: two connections subscribe to room `r1`, a
broadcast to `r1` loses the write to the first of them only, and a third
connection subscribes to room `r2` and leaves it again. -/
def survivingSubscriber : List Op :=
  [Op.subscribe "r1" 1 1, Op.subscribe "r1" 2 2,
    Op.notify (fun c => c == 1) ⟨"message_created", GoValue.null, "r1"⟩,
    Op.subscribe "r2" 3 3, Op.unsubscribe "r2" 3]

/-! ## The mutex of the registry -/

/-- The connections written to while the registry mutex is held, for a trace
that starts with the mutex held (`held = true`) or free (`held = false`). -/
def writesUnderLock (held : Bool) : List Event → List Conn
  | [] => []
  | Event.lock :: tr => writesUnderLock true tr
  | Event.unlock :: tr => writesUnderLock false tr
  | Event.writeJSON c _ :: tr =>
    if held then c :: writesUnderLock held tr else writesUnderLock held tr
  | Event.lookup _ :: tr => writesUnderLock held tr
  | Event.cancel _ :: tr => writesUnderLock held tr
  | Event.delete _ :: tr => writesUnderLock held tr

/-! ## One connection: deadlines, keepalive and the two readers

The part of `handleSubscribe` after the registration (lines 191-251).  The
handler runs two loops on the same connection: the ping routine (the goroutine
of lines 203-232) and the message reading loop (lines 235-251).  Each of them is
a small state machine whose program counter says where the loop stands.  The
inputs are what the environment decides: which case a `select` takes, whether a
write succeeds, which frame a pending `c.ReadMessage()` consumes and when. -/

/-- Instants and durations, in nanoseconds. -/
abbrev Time := Nat

/-- `time.Second`. -/
def Second : Nat := 1000000000

/-- A data frame from the peer: its payload and what
`json.Unmarshal(msgBytes, &raw)` makes of it (`none` when it returns an error,
otherwise the decoded `map[string]interface{}` as a lookup function). -/
structure DataFrame where
  payload : String
  unmarshal : Option (String → Option JsonValue)

/-- What a pending `c.ReadMessage()` consumes: a data frame, a pong control
frame, or a failure of the read (close frame, lapsed read deadline, transport
error); the flag of a failure is the value of
`websocket.IsUnexpectedCloseError(err, CloseGoingAway, CloseAbnormalClosure)`. -/
inductive Inbound where
  | data : DataFrame → Inbound
  | pong : Inbound
  | failure : Bool → Inbound

/-- A frame handed to `c.WriteMessage`. -/
inductive Outbound where
  | ping : Outbound
  | text : String → Outbound
  deriving DecidableEq

/-- Where a loop stands. -/
inductive Pc where
  /-- at its `select` statement -/
  | select : Pc
  /-- inside `c.ReadMessage()` -/
  | reading : Pc
  /-- the loop has returned -/
  | returned : Pc
  deriving DecidableEq

/-- The state of one run of `handleSubscribe` after the registration. -/
structure Handler where
  /-- the read deadline of the connection, set by `c.SetReadDeadline` -/
  readDeadline : Time
  /-- the frames handed to `c.WriteMessage`, oldest first -/
  sent : List Outbound
  /-- whether `ctx` is cancelled, i.e. `cancel()` has been called -/
  ctxDone : Bool
  /-- the ping routine -/
  pingRoutine : Pc
  /-- the message reading loop -/
  readLoop : Pc
  deriving DecidableEq

/-- `c.SetReadDeadline(t)`. -/
def setReadDeadline (h : Handler) (t : Time) : Handler :=
  { h with readDeadline := t }

/-- The pong handler installed by line 193:
`c.SetReadDeadline(time.Now().Add(60 * time.Second))`. -/
def pongHandler (now : Time) (h : Handler) : Handler :=
  setReadDeadline h (now + 60 * Second)

/-- Lines 191-203: the read deadline is set to `time.Now()` plus 60 seconds, the
pong handler is installed and both loops are started. -/
def start (now : Time) : Handler :=
  { readDeadline := now + 60 * Second, sent := [], ctxDone := false,
    pingRoutine := Pc.select, readLoop := Pc.select }

/-- `cancel()`: the context is cancelled; a second call changes nothing. -/
def fireCancel (h : Handler) : Handler :=
  { h with ctxDone := true }

/-- What `c.ReadMessage()` does with a frame. -/
inductive ReadResult where
  /-- it returns the payload of a data frame -/
  | message : DataFrame → ReadResult
  /-- it returns an error -/
  | error : Bool → ReadResult
  /-- it handled a control frame and keeps waiting -/
  | waiting : ReadResult

/-- `c.ReadMessage()` of the websocket library on one frame arriving at time
`now`: a pong runs the pong handler and the read keeps waiting, a data frame is
returned, a failure is returned as an error.  The read itself never moves the
read deadline. -/
def readMessage (now : Time) (h : Handler) : Inbound → Handler × ReadResult
  | Inbound.pong => (pongHandler now h, ReadResult.waiting)
  | Inbound.data d => (h, ReadResult.message d)
  | Inbound.failure unexpected => (h, ReadResult.error unexpected)

/-- The case taken by the `select` of the ping routine (lines 206-214): the
ticker fired, with the outcome of the ping write, or `ctx.Done()`. -/
inductive SelectCase where
  | tick : Bool → SelectCase
  | done : SelectCase

/-- The `select` of the ping routine (lines 206-214).  On a tick the ping is
written; when the write fails the routine logs and returns.  `ctx.Done()` can
only be taken when the context is cancelled. -/
def pingRoutineSelect (h : Handler) (sc : SelectCase) : Handler :=
  if h.pingRoutine ≠ Pc.select then h
  else
    match sc with
    | SelectCase.tick pingOk =>
      if pingOk then { h with sent := h.sent ++ [Outbound.ping], pingRoutine := Pc.reading }
      else { h with sent := h.sent ++ [Outbound.ping], pingRoutine := Pc.returned }
    | SelectCase.done =>
      if h.ctxDone then { h with pingRoutine := Pc.returned } else h

/-- The payload of the reply of line 227. -/
def serverPong : String := "\x7b\"kind\":\"server_pong\"\x7d"

/-- Lines 223-225: the payload decodes to an object whose `kind` is the string
`client_ping`. -/
def isClientPing (d : DataFrame) : Bool :=
  match d.unmarshal with
  | some raw =>
    match raw "kind" with
    | some (JsonValue.str kind) => kind == "client_ping"
    | _ => false
  | none => false

/-- The read of the ping routine (lines 215-230) on the frame its pending
`c.ReadMessage()` consumes at time `now`. -/
def pingRoutineRead (now : Time) (h : Handler) (f : Inbound) : Handler :=
  if h.pingRoutine ≠ Pc.reading then h
  else
    match readMessage now h f with
    | (h1, ReadResult.waiting) => h1
    | (h1, ReadResult.error _) => { h1 with pingRoutine := Pc.returned }
    | (h1, ReadResult.message d) =>
      if isClientPing d then
        { h1 with sent := h1.sent ++ [Outbound.text serverPong], pingRoutine := Pc.select }
      else { h1 with pingRoutine := Pc.select }

/-- The `select` of the message reading loop (lines 236-240): it returns when the
context is cancelled and goes on to `c.ReadMessage()` otherwise. -/
def readLoopSelect (h : Handler) : Handler :=
  if h.readLoop ≠ Pc.select then h
  else if h.ctxDone then { h with readLoop := Pc.returned }
  else { h with readLoop := Pc.reading }

/-- The read of the message reading loop (lines 241-250) on the frame its pending
`c.ReadMessage()` consumes at time `now`: an error ends the loop, a message is
dropped. -/
def readLoopRead (now : Time) (h : Handler) (f : Inbound) : Handler :=
  if h.readLoop ≠ Pc.reading then h
  else
    match readMessage now h f with
    | (h1, ReadResult.waiting) => h1
    | (h1, ReadResult.error _) => { h1 with readLoop := Pc.returned }
    | (h1, ReadResult.message _) => { h1 with readLoop := Pc.select }

/-- The frame `\x7b"kind":"client_ping"\x7d` sent by a client. -/
def clientPingFrame : DataFrame :=
  { payload := "\x7b\"kind\":\"client_ping\"\x7d",
    unmarshal := some fun k => if k = "kind" then some (JsonValue.str "client_ping") else none }

/-- A connection accepted at time 0 with both loops inside `c.ReadMessage()`:
the ticker fired once, the ping was written, and the reading loop passed its
`select`. -/
def bothReading : Handler :=
  readLoopSelect (pingRoutineSelect (start 0) (SelectCase.tick true))

/-- The events that take or release the registry mutex. -/
def isMutexOp : Event → Bool
  | Event.lock => true
  | Event.unlock => true
  | _ => false

/-- A data frame that is not JSON. -/
def plainFrame : DataFrame :=
  { payload := "hello", unmarshal := none }

/-- The event broadcast in the examples. -/
def sampleMessage : Message :=
  { Kind := "message_created", Value := GoValue.null, RoomID := "r1" }

/-! ## The wire shape of a broadcast event -/

mutual
/-- `json.Marshal` of the Go library on a value: `none` when it returns an error,
which it does as soon as a value of an unsupported kind is met. -/
def marshal : GoValue → Option JsonValue
  | GoValue.null => some JsonValue.null
  | GoValue.bool b => some (JsonValue.bool b)
  | GoValue.int n => some (JsonValue.number n)
  | GoValue.str s => some (JsonValue.str s)
  | GoValue.slice xs => (marshalElems xs).map JsonValue.arr
  | GoValue.struct fields => (marshalFields fields).map JsonValue.obj
  | GoValue.unsupported => none
/-- The elements of a slice, encoded in order. -/
def marshalElems : List GoValue → Option (List JsonValue)
  | [] => some []
  | x :: xs =>
    match marshal x with
    | none => none
    | some j => (marshalElems xs).map fun js => j :: js
/-- The fields of a struct, encoded in order, each under its name. -/
def marshalFields : List (String × GoValue) → Option (List (String × JsonValue))
  | [] => some []
  | (name, x) :: fields =>
    match marshal x with
    | none => none
    | some j => (marshalFields fields).map fun js => (name, j) :: js
end

/-- The struct `Message` (lines 109-113) as a Go value: the fields `Kind`,
`Value` and `RoomID` with the tags `kind`, `value` and `room_id`. -/
def messageStruct (m : Message) : GoValue :=
  GoValue.struct [("kind", GoValue.str m.Kind), ("value", m.Value), ("room_id", GoValue.str m.RoomID)]

/-- The struct `MessageMessageCreated` (lines 103-107) as a Go value. -/
def messageCreated (id message author : String) : GoValue :=
  GoValue.struct
    [("id", GoValue.str id), ("message", GoValue.str message), ("author", GoValue.str author)]

/-- The structs `MessageMessageReactionIncreased` and
`MessageMessageReactionDecreased` (lines 89-97) as a Go value. -/
def messageReaction (id : String) (count : Int) : GoValue :=
  GoValue.struct [("id", GoValue.str id), ("count", GoValue.int count)]

/-- The struct `MessageMessageAnswered` (lines 99-101) as a Go value. -/
def messageAnswered (id : String) : GoValue :=
  GoValue.struct [("id", GoValue.str id)]

/-- The JSON encoding of a `Message`, as `conn.WriteJSON(msg)` computes it with
`encoding/json`; `none` when the encoding fails. -/
def marshalMessage (m : Message) : Option JsonValue :=
  marshal (messageStruct m)

/-- The payload that each `conn.WriteJSON(msg)` of a trace hands to its
connection: the encoding of `msg`, or nothing when the encoding fails (the text
frame is then closed empty). -/
def payloadsOf (tr : List Event) : List (Conn × Option JsonValue) :=
  tr.filterMap fun e => match e with
    | Event.writeJSON c msg => some (c, marshalMessage msg)
    | _ => none

/-- Whether `conn.WriteJSON(msg)` returns an error: the encoding of `msg` fails
or the transport of the connection does. -/
def writeJSONFails (transportFails : Conn → Bool) (msg : Message) (c : Conn) : Bool :=
  (marshalMessage msg).isNone || transportFails c

/-- A `message_reaction_increased` event as `handleReactToMessage` broadcasts it
(lines 455-462). -/
def reactionMessage : Message :=
  { Kind := "message_reaction_increased", Value := messageReaction "m1" 3, RoomID := "r1" }

/-- A `Message` whose `Value` is a channel. -/
def channelMessage : Message :=
  { Kind := "message_created", Value := GoValue.unsupported, RoomID := "r1" }

/-! ## The validators of `validators.go`

A Go `string` is modelled by a `String`: the text it holds when it is valid
UTF-8.  `len(s)` is then the number of bytes of the UTF-8 encoding,
`String.utf8ByteSize`, and the number of characters is `String.length`. -/

/-- The errors declared in `validators.go`. -/
inductive ValidationError where
  | ErrInvalidID : ValidationError
  | ErrEmptyMessage : ValidationError
  | ErrMessageTooLong : ValidationError
  | ErrInvalidAuthorID : ValidationError
  | ErrInvalidAuthorName : ValidationError
  | ErrInvalidTheme : ValidationError
  | ErrThemeTooLong : ValidationError
  deriving DecidableEq

/-- The constant `MaxMessageLength`. -/
def MaxMessageLength : Nat := 2000

/-- The constant `MaxThemeLength`. -/
def MaxThemeLength : Nat := 100

/-- `unicode.IsSpace` of the Go library: in Latin-1 the characters tab, line
feed, vertical tab, form feed, carriage return, space, U+0085 and U+00A0;
beyond Latin-1 the characters of the Unicode property White_Space. -/
def isSpace (r : Char) : Bool :=
  if r.toNat ≤ 0xFF then
    r.toNat == 0x09 || r.toNat == 0x0A || r.toNat == 0x0B || r.toNat == 0x0C ||
      r.toNat == 0x0D || r.toNat == 0x20 || r.toNat == 0x85 || r.toNat == 0xA0
  else
    r.toNat == 0x1680 || (0x2000 ≤ r.toNat && r.toNat ≤ 0x200A) || r.toNat == 0x2028 ||
      r.toNat == 0x2029 || r.toNat == 0x202F || r.toNat == 0x205F || r.toNat == 0x3000

/-- `strings.TrimSpace` of the Go library: the string without its leading and
trailing white space. -/
def TrimSpace (s : String) : String :=
  String.mk ((s.data.dropWhile isSpace).reverse.dropWhile isSpace).reverse

/-- `len(s)` of a Go string: its length in bytes. -/
def byteLen (s : String) : Nat := s.utf8ByteSize

/-- `ValidateMessage` (lines 35-45); `none` is the `nil` error. -/
def ValidateMessage (message : String) : Option ValidationError :=
  if TrimSpace message = "" then some ValidationError.ErrEmptyMessage
  else if byteLen message > MaxMessageLength then some ValidationError.ErrMessageTooLong
  else none

/-- `ValidateAuthor` (lines 48-58); `none` is the `nil` error. -/
def ValidateAuthor (authorID authorName : String) : Option ValidationError :=
  if TrimSpace authorID = "" then some ValidationError.ErrInvalidAuthorID
  else if TrimSpace authorName = "" then some ValidationError.ErrInvalidAuthorName
  else none

/-- A string that is empty or consists of white space only. -/
def isBlank (s : String) : Bool :=
  s.data.isEmpty || s.data.all isSpace

/-- The message of 1001 copies of the letter U+00E9 (e with acute accent), each
of which takes two bytes in UTF-8. -/
def accentedMessage : String :=
  String.mk (List.replicate 1001 (Char.ofNat 0xE9))

/-- Whether room `r` counts as drained after one operation, given the registry
`h` and the status `d` before it: a broadcast to `r` that loses the write to
every subscriber drains the room, a Subscribe or an Unsubscribe for `r` ends
that, and every other operation leaves the status as it was. -/
def drainedStep (r : RoomID) (h : Registry) (d : Bool) : Op → Bool
  | Op.subscribe room _ _ => if room = r then false else d
  | Op.unsubscribe room _ => if room = r then false else d
  | Op.notify fails msg => if msg.RoomID = r ∧ allWritesFail fails h msg = true then true else d

/-- The status of room `r` after the operations `ops`, run from the registry `h`
in which the status is `d`. -/
def drainedFrom (r : RoomID) : Registry → Bool → List Op → Bool
  | _, d, [] => d
  | h, d, op :: ops => drainedFrom r (step h op) (drainedStep r h d op) ops

/-- Room `r` is drained after `ops` on a new handler: the last Subscribe,
Unsubscribe or write-losing Notify for `r` was a Notify that lost the write to
every subscriber of `r`. -/
def drained (ops : List Op) (r : RoomID) : Bool :=
  drainedFrom r newRegistry false ops

/-- The status `d` of room `r` agrees with the registry `h`: the key `r` holds an
empty map exactly when the room is drained. -/
def RoomStatus (h : Registry) (d : Bool) (r : RoomID) : Prop :=
  (h.lookup r = none → d = false) ∧ ∀ s, h.lookup r = some s → (len s = 0 ↔ d = true)

/-- The operations of `lostSubscriber` followed by the cleanup of the lost
connection, a registration for another room and a new registration for `r1`. -/
def reapedAndResubscribed : List Op :=
  lostSubscriber ++ [Op.unsubscribe "r1" 1, Op.subscribe "r2" 2 2, Op.subscribe "r1" 3 3]

/-- What happens next on a connection: the `select` of the ping routine takes a
case, the `c.ReadMessage()` of the ping routine consumes a frame at a time, the
message reading loop evaluates its `select`, the `c.ReadMessage()` of the
message reading loop consumes a frame at a time, or `cancel()` is called (by
`notifyClients` or by the deferred call of the handler). -/
inductive Input where
  | pingSelect : SelectCase → Input
  | pingRead : Time → Inbound → Input
  | readSelect : Input
  | readRead : Time → Inbound → Input
  | cancel : Input

/-- The handler after one input. -/
def handlerStep (h : Handler) : Input → Handler
  | Input.pingSelect sc => pingRoutineSelect h sc
  | Input.pingRead now f => pingRoutineRead now h f
  | Input.readSelect => readLoopSelect h
  | Input.readRead now f => readLoopRead now h f
  | Input.cancel => fireCancel h

/-- The handler after a sequence of inputs, starting from `h`. -/
def runHandlerFrom (h : Handler) (inputs : List Input) : Handler :=
  inputs.foldl handlerStep h

/-- The handler of a connection set up at time `t0` after a sequence of
inputs. -/
def runHandler (t0 : Time) (inputs : List Input) : Handler :=
  runHandlerFrom (start t0) inputs

/-- The time of the last refresh after one input, `last` being the time before
it: a pong consumed by a loop that is inside `c.ReadMessage()` refreshes, nothing
else does. -/
def refreshStep (h : Handler) (last : Time) : Input → Time
  | Input.pingRead now Inbound.pong => if h.pingRoutine = Pc.reading then now else last
  | Input.readRead now Inbound.pong => if h.readLoop = Pc.reading then now else last
  | _ => last

/-- The time of the last refresh after a sequence of inputs run from `h`. -/
def lastRefreshFrom : Handler → Time → List Input → Time
  | _, last, [] => last
  | h, last, i :: inputs => lastRefreshFrom (handlerStep h i) (refreshStep h last i) inputs

/-- The time of the setup of the connection or, if a pong was read since, the
time at which the last pong was read. -/
def lastRefresh (t0 : Time) (inputs : List Input) : Time :=
  lastRefreshFrom (start t0) t0 inputs

/-- A connection set up at time 0 in its first 54 seconds: the ticker has not
fired yet, the message reading loop is inside `c.ReadMessage()`. -/
def firstSeconds : Handler :=
  readLoopSelect (start 0)

/-- A run of a connection: the reading loop reads a data frame at second 10 and
a pong at second 20; then the ticker fires, the ping is written, and the ping
routine reads a data frame at second 30. -/
def sampleRun : List Input :=
  [Input.readSelect, Input.readRead (10 * Second) (Inbound.data plainFrame), Input.readSelect,
    Input.readRead (20 * Second) Inbound.pong, Input.pingSelect (SelectCase.tick true),
    Input.pingRead (30 * Second) (Inbound.data plainFrame)]

/-! ## Facts about association lists -/

section Maps

variable {K : Type} [DecidableEq K] {V : Type}

theorem kreplace_cons (a : K) (b : V) (s : Sigma fun _ : K => V)
    (l : List (Sigma fun _ : K => V)) :
    List.kreplace a b (s :: l) = if a = s.1 then ⟨a, b⟩ :: l else s :: List.kreplace a b l := by
  unfold List.kreplace
  by_cases h : a = s.1 <;> simp [List.lookmap_cons_some, List.lookmap_cons_none, h]

theorem dlookup_kreplace_self (a : K) (b : V) (l : List (Sigma fun _ : K => V)) :
    List.dlookup a (List.kreplace a b l) = if a ∈ l.keys then some b else none := by
  induction l with
  | nil => simp [List.kreplace]
  | cons s l ih =>
    rw [kreplace_cons]
    by_cases h : a = s.1
    · obtain ⟨k, v⟩ := s
      simp only at h
      subst h
      rw [if_pos rfl, List.dlookup_cons_eq]
      simp
    · rw [if_neg h, List.dlookup_cons_ne _ _ h, ih]
      simp [h]

theorem dlookup_kreplace_ne {a a' : K} (b : V) (l : List (Sigma fun _ : K => V)) (h : a' ≠ a) :
    List.dlookup a' (List.kreplace a b l) = List.dlookup a' l := by
  induction l with
  | nil => simp [List.kreplace]
  | cons s l ih =>
    rw [kreplace_cons]
    by_cases hs : a = s.1
    · rw [if_pos hs]
      have h1 : a' ≠ (⟨a, b⟩ : Sigma fun _ : K => V).1 := h
      have h2 : a' ≠ s.1 := hs ▸ h
      rw [List.dlookup_cons_ne _ _ h1, List.dlookup_cons_ne _ _ h2]
    · rw [if_neg hs]
      by_cases h2 : a' = s.1
      · obtain ⟨k, v⟩ := s
        simp only at h2
        subst h2
        rw [List.dlookup_cons_eq, List.dlookup_cons_eq]
      · rw [List.dlookup_cons_ne _ _ h2, List.dlookup_cons_ne _ _ h2, ih]

theorem lookup_replace_self (a : K) (b : V) (m : AList fun _ : K => V) :
    (m.replace a b).lookup a = if a ∈ m then some b else none := by
  have := dlookup_kreplace_self a b m.entries
  simpa [AList.lookup, AList.replace, AList.mem_keys, AList.keys] using this

theorem lookup_replace_ne {a a' : K} (b : V) (m : AList fun _ : K => V) (h : a' ≠ a) :
    (m.replace a b).lookup a' = m.lookup a' :=
  dlookup_kreplace_ne b m.entries h

theorem replace_of_lookup {a : K} {b : V} {m : AList fun _ : K => V}
    (h : m.lookup a = some b) : m.replace a b = m :=
  AList.ext (List.kreplace_self m.nodupKeys (AList.mem_lookup_iff.1 h))

theorem erase_of_not_mem {a : K} {m : AList fun _ : K => V} (h : a ∉ m) : m.erase a = m :=
  AList.ext (List.kerase_of_not_mem_keys h)

theorem mem_of_lookup {a : K} {b : V} {m : AList fun _ : K => V}
    (h : m.lookup a = some b) : a ∈ m :=
  AList.lookup_isSome.1 (by simp [h])

end Maps

/-! ## The registry operations, key by key -/

theorem len_eq_zero_iff (s : SubscriberSet) : len s = 0 ↔ s = ∅ := by
  constructor
  · intro h
    exact AList.ext (List.length_eq_zero.1 h)
  · rintro rfl
    rfl

theorem subscribersOf_of_lookup {h : Registry} {room : RoomID} {s : SubscriberSet}
    (hl : h.lookup room = some s) : subscribersOf h room = s := by
  simp [subscribersOf, hl]

theorem subscribersOf_of_not_mem {h : Registry} {room : RoomID} (hn : room ∉ h) :
    subscribersOf h room = ∅ := by
  simp [subscribersOf, AList.lookup_eq_none.2 hn]

theorem lookup_subscribe_self (h : Registry) (room : RoomID) (c : Conn) (cancel : CancelFunc) :
    (subscribe h room c cancel).lookup room = some ((subscribersOf h room).insert c cancel) := by
  unfold subscribe
  by_cases hm : room ∈ h
  · simp only [if_pos hm]
    rw [lookup_replace_self, if_pos hm]
  · simp only [if_neg hm]
    rw [lookup_replace_self, if_pos ((AList.mem_insert h).2 (Or.inl rfl))]
    rw [subscribersOf_of_not_mem hm]
    simp [subscribersOf, AList.lookup_insert]

theorem lookup_subscribe_ne (h : Registry) {room r : RoomID} (c : Conn) (cancel : CancelFunc)
    (hr : r ≠ room) : (subscribe h room c cancel).lookup r = h.lookup r := by
  unfold subscribe
  by_cases hm : room ∈ h
  · simp only [if_pos hm]
    rw [lookup_replace_ne _ _ hr]
  · simp only [if_neg hm]
    rw [lookup_replace_ne _ _ hr, AList.lookup_insert_ne hr]

theorem unsubscribe_of_not_mem {h : Registry} {room : RoomID} (c : Conn) (hn : room ∉ h) :
    unsubscribe h room c = h := by
  unfold unsubscribe
  rw [AList.lookup_eq_none.2 hn]
  simp only
  rw [subscribersOf_of_not_mem hn]
  simp [len, erase_of_not_mem hn]

theorem unsubscribe_of_lookup {h : Registry} {room : RoomID} {s : SubscriberSet} (c : Conn)
    (hl : h.lookup room = some s) :
    unsubscribe h room c =
      if len (s.erase c) = 0 then (h.replace room (s.erase c)).erase room
      else h.replace room (s.erase c) := by
  unfold unsubscribe
  rw [hl]
  simp only
  have : subscribersOf (h.replace room (s.erase c)) room = s.erase c := by
    apply subscribersOf_of_lookup
    rw [lookup_replace_self, if_pos (mem_of_lookup hl)]
  rw [this]

theorem lookup_unsubscribe_self (h : Registry) (room : RoomID) (c : Conn) :
    (unsubscribe h room c).lookup room =
      if len ((subscribersOf h room).erase c) = 0 then none
      else some ((subscribersOf h room).erase c) := by
  cases hl : h.lookup room with
  | none =>
    have hn : room ∉ h := AList.lookup_eq_none.1 hl
    rw [unsubscribe_of_not_mem c hn, hl, subscribersOf_of_not_mem hn]
    simp [len, AList.erase]
  | some s =>
    rw [unsubscribe_of_lookup c hl, subscribersOf_of_lookup hl]
    by_cases h0 : len (s.erase c) = 0
    · simp only [if_pos h0]
      exact AList.lookup_erase _ _
    · simp only [if_neg h0]
      rw [lookup_replace_self, if_pos (mem_of_lookup hl)]

theorem lookup_unsubscribe_ne (h : Registry) {room r : RoomID} (c : Conn) (hr : r ≠ room) :
    (unsubscribe h room c).lookup r = h.lookup r := by
  cases hl : h.lookup room with
  | none => rw [unsubscribe_of_not_mem c (AList.lookup_eq_none.1 hl)]
  | some s =>
    rw [unsubscribe_of_lookup c hl]
    by_cases h0 : len (s.erase c) = 0
    · simp only [if_pos h0]
      rw [AList.lookup_erase_ne hr, lookup_replace_ne _ _ hr]
    · simp only [if_neg h0]
      rw [lookup_replace_ne _ _ hr]

/-! ## The two loops of `notifyClients` -/

theorem writeLoop_eq (fails : Conn → Bool) (msg : Message)
    (es : List (Sigma fun _ : Conn => CancelFunc)) (fc : List Conn) (tr : List Event) :
    writeLoop fails msg es fc tr =
      (fc ++ (es.filter fun e => fails e.1).map Sigma.fst,
        tr ++ (es.map (writeEvents fails msg)).flatten) := by
  induction es generalizing fc tr with
  | nil => simp [writeLoop]
  | cons e es ih =>
    obtain ⟨c, f⟩ := e
    by_cases hf : fails c = true
    · simp [writeLoop, hf, ih, writeEvents]
    · simp [writeLoop, hf, ih, writeEvents]

theorem deleteLoop_eq (fc : List Conn) (s : SubscriberSet) (tr : List Event) :
    deleteLoop fc s tr = (fc.foldl (fun s c => s.erase c) s, tr ++ fc.map Event.delete) := by
  induction fc generalizing s tr with
  | nil => simp [deleteLoop]
  | cons c fc ih => simp [deleteLoop, ih]

theorem kerase_eq_filter (a : Conn) (l : List (Sigma fun _ : Conn => CancelFunc))
    (nd : l.NodupKeys) : l.kerase a = l.filter fun e => decide (e.1 ≠ a) := by
  induction l with
  | nil => simp
  | cons e l ih =>
    have ndl : l.NodupKeys := (List.nodupKeys_cons.1 nd).2
    by_cases h : a = e.1
    · rw [List.kerase_cons_eq h]
      have hn : a ∉ l.keys := h ▸ (List.nodupKeys_cons.1 nd).1
      rw [List.filter_cons_of_neg (by simp [h])]
      rw [← ih ndl, List.kerase_of_not_mem_keys hn]
    · rw [List.kerase_cons_ne h, ih ndl]
      rw [List.filter_cons_of_pos (by simpa using fun h2 => h h2.symm)]

theorem entries_foldl_erase (fc : List Conn) (s : SubscriberSet) :
    (fc.foldl (fun s c => s.erase c) s).entries = s.entries.filter fun e => decide (e.1 ∉ fc) := by
  induction fc generalizing s with
  | nil => simp
  | cons c fc ih =>
    rw [List.foldl_cons, ih]
    show (s.entries.kerase c).filter _ = _
    rw [kerase_eq_filter c s.entries s.nodupKeys, List.filter_filter]
    apply List.filter_congr
    intro e _
    by_cases h1 : e.1 = c <;> simp [h1]

/-- The inner map that `notifyClients` leaves behind for a room whose map was
`s`: the entries of `s` whose write succeeded, in the same order. -/
theorem entries_after_loops (fails : Conn → Bool) (msg : Message) (s : SubscriberSet)
    (tr : List Event) :
    (deleteLoop (writeLoop fails msg s.entries [] tr).1 s
        (writeLoop fails msg s.entries [] tr).2).1.entries =
      s.entries.filter fun e => !fails e.1 := by
  rw [writeLoop_eq, deleteLoop_eq, entries_foldl_erase]
  apply List.filter_congr
  intro e he
  by_cases hf : fails e.1 = true
  · have : e.1 ∈ (s.entries.filter fun e => fails e.1).map Sigma.fst :=
      List.mem_map.2 ⟨e, List.mem_filter.2 ⟨he, hf⟩, rfl⟩
    simp [hf, this]
  · have : e.1 ∉ (s.entries.filter fun e => fails e.1).map Sigma.fst := by
      intro hm
      obtain ⟨e2, h2, h3⟩ := List.mem_map.1 hm
      have h4 := List.mem_filter.1 h2
      have : e2 = e := s.nodupKeys.eq_of_fst_eq h4.1 he h3
      exact hf (this ▸ h4.2)
    simp [hf, this]

theorem writesOf_append (a b : List Event) : writesOf (a ++ b) = writesOf a ++ writesOf b :=
  List.filterMap_append _ _ _

theorem cancelsOf_append (a b : List Event) : cancelsOf (a ++ b) = cancelsOf a ++ cancelsOf b :=
  List.filterMap_append _ _ _

theorem writesOf_writeEvents (fails : Conn → Bool) (msg : Message)
    (es : List (Sigma fun _ : Conn => CancelFunc)) :
    writesOf (es.map (writeEvents fails msg)).flatten = es.map Sigma.fst := by
  induction es with
  | nil => rfl
  | cons e es ih =>
    rw [List.map_cons, List.flatten_cons, writesOf_append, ih]
    by_cases hf : fails e.1 = true <;> simp [writeEvents, hf, writesOf]

theorem cancelsOf_writeEvents (fails : Conn → Bool) (msg : Message)
    (es : List (Sigma fun _ : Conn => CancelFunc)) :
    cancelsOf (es.map (writeEvents fails msg)).flatten =
      (es.filter fun e => fails e.1).map Sigma.snd := by
  induction es with
  | nil => rfl
  | cons e es ih =>
    rw [List.map_cons, List.flatten_cons, cancelsOf_append, ih]
    by_cases hf : fails e.1 = true <;> simp [writeEvents, hf, cancelsOf]

theorem writesOf_map_delete (fc : List Conn) : writesOf (fc.map Event.delete) = [] := by
  induction fc with
  | nil => rfl
  | cons c fc ih => simp [writesOf]

theorem cancelsOf_map_delete (fc : List Conn) : cancelsOf (fc.map Event.delete) = [] := by
  induction fc with
  | nil => rfl
  | cons c fc ih => simp [cancelsOf]

/-- The trace of a call of `notifyClients` that finds subscribers. -/
theorem notifyClients_of_lookup (fails : Conn → Bool) {h : Registry} (msg : Message)
    {s : SubscriberSet} (hl : h.lookup msg.RoomID = some s) (h0 : len s ≠ 0) :
    (notifyClients fails h msg).trace =
      [Event.lock, Event.lookup msg.RoomID] ++ (s.entries.map (writeEvents fails msg)).flatten ++
        ((s.entries.filter fun e => fails e.1).map Sigma.fst).map Event.delete ++ [Event.unlock] ∧
    (notifyClients fails h msg).subscribers.lookup msg.RoomID =
      some ⟨s.entries.filter fun e => !fails e.1,
        List.NodupKeys.sublist (List.filter_sublist _) s.nodupKeys⟩ ∧
    ∀ r, r ≠ msg.RoomID → (notifyClients fails h msg).subscribers.lookup r = h.lookup r := by
  unfold notifyClients
  rw [hl]
  simp only [if_neg h0]
  refine ⟨?_, ?_, ?_⟩
  · rw [writeLoop_eq, deleteLoop_eq]
    simp
  · rw [lookup_replace_self, if_pos (mem_of_lookup hl)]
    congr 1
    exact AList.ext (entries_after_loops fails msg s _)
  · intro r hr
    exact lookup_replace_ne _ _ hr

/-- A call of `notifyClients` that finds no subscribers only takes the lock,
looks the room up and releases the lock. -/
theorem notifyClients_of_empty (fails : Conn → Bool) {h : Registry} (msg : Message)
    (h0 : len (subscribersOf h msg.RoomID) = 0) :
    notifyClients fails h msg = ⟨h, [Event.lock, Event.lookup msg.RoomID, Event.unlock]⟩ := by
  unfold notifyClients
  cases hl : h.lookup msg.RoomID with
  | none => rfl
  | some s =>
    rw [subscribersOf_of_lookup hl] at h0
    simp [h0]

/-! ## Rooms without subscribers -/

theorem noEmptyRoom_subscribe {h : Registry} (hi : NoEmptyRoom h) (room : RoomID) (c : Conn)
    (cancel : CancelFunc) : NoEmptyRoom (subscribe h room c cancel) := by
  intro r s hl
  by_cases hr : r = room
  · subst hr
    rw [lookup_subscribe_self] at hl
    cases hl
    simp [len, AList.insert_entries]
  · rw [lookup_subscribe_ne h c cancel hr] at hl
    exact hi r s hl

theorem noEmptyRoom_unsubscribe {h : Registry} (hi : NoEmptyRoom h) (room : RoomID) (c : Conn) :
    NoEmptyRoom (unsubscribe h room c) := by
  intro r s hl
  by_cases hr : r = room
  · subst hr
    rw [lookup_unsubscribe_self] at hl
    by_cases h0 : len ((subscribersOf h r).erase c) = 0
    · simp [h0] at hl
    · simp only [if_neg h0] at hl
      cases hl
      exact h0
  · rw [lookup_unsubscribe_ne h c hr] at hl
    exact hi r s hl

theorem noEmptyRoom_notify {h : Registry} (hi : NoEmptyRoom h) (fails : Conn → Bool)
    (msg : Message) (hf : allWritesFail fails h msg = false) :
    NoEmptyRoom (notifyClients fails h msg).subscribers := by
  by_cases h0 : len (subscribersOf h msg.RoomID) = 0
  · rw [notifyClients_of_empty fails msg h0]
    exact hi
  · cases hl : h.lookup msg.RoomID with
    | none => simp [subscribersOf, hl, len] at h0
    | some s =>
      rw [subscribersOf_of_lookup hl] at h0
      obtain ⟨_, h2, h3⟩ := notifyClients_of_lookup fails msg hl h0
      intro r t ht
      by_cases hr : r = msg.RoomID
      · subst hr
        rw [h2] at ht
        cases ht
        have hall : s.keys.all fails = false := by
          simpa [allWritesFail, subscribersOf_of_lookup hl, h0] using hf
        obtain ⟨k, hk, hkf⟩ : ∃ k ∈ s.keys, fails k = false := by
          simpa [List.all_eq_false] using hall
        obtain ⟨v, hv⟩ := List.mem_keys.1 hk
        have hm : (⟨k, v⟩ : Sigma fun _ : Conn => CancelFunc) ∈
            s.entries.filter fun e => !fails e.1 :=
          List.mem_filter.2 ⟨hv, by simp [hkf]⟩
        intro hz
        have hnil := List.length_eq_zero.1 hz
        simp only at hnil
        rw [hnil] at hm
        exact List.not_mem_nil _ hm
      · rw [h3 r hr] at ht
        exact hi r t ht

theorem noEmptyRoom_runFrom (ops : List Op) :
    ∀ h : Registry, NoEmptyRoom h → noTotalFailure h ops = true → NoEmptyRoom (runFrom h ops) := by
  induction ops with
  | nil => intro h hi _; exact hi
  | cons op ops ih =>
    intro h hi hok
    cases op with
    | subscribe room c cancel =>
      exact ih _ (noEmptyRoom_subscribe hi room c cancel) (by simpa [noTotalFailure] using hok)
    | unsubscribe room c =>
      exact ih _ (noEmptyRoom_unsubscribe hi room c) (by simpa [noTotalFailure] using hok)
    | notify fails msg =>
      have hok2 : allWritesFail fails h msg = false ∧
          noTotalFailure (step h (Op.notify fails msg)) ops = true := by
        simpa [noTotalFailure] using hok
      exact ih _ (noEmptyRoom_notify hi fails msg hok2.1) hok2.2

theorem mem_iff_of_noEmptyRoom {h : Registry} (hi : NoEmptyRoom h) (r : RoomID) :
    r ∈ h ↔ len (subscribersOf h r) ≠ 0 := by
  constructor
  · intro hm
    cases hl : h.lookup r with
    | none => exact absurd hm (AList.lookup_eq_none.1 hl)
    | some s =>
      rw [subscribersOf_of_lookup hl]
      exact hi r s hl
  · intro hne
    by_contra hn
    exact hne (by rw [subscribersOf_of_not_mem hn]; rfl)

/-! ## Registrations and cleanups -/

theorem subscribersOf_subscribe (h : Registry) (room : RoomID) (c : Conn) (cancel : CancelFunc) :
    subscribersOf (subscribe h room c cancel) room = (subscribersOf h room).insert c cancel :=
  subscribersOf_of_lookup (lookup_subscribe_self h room c cancel)

theorem subscribeAll_from (room : RoomID) (handles : List (Conn × CancelFunc)) :
    ∀ h : Registry, (handles.map Prod.fst).Nodup →
      (∀ c ∈ handles.map Prod.fst, c ∉ subscribersOf h room) →
      len (subscribersOf (subscribeAll h room handles) room) =
        len (subscribersOf h room) + handles.length ∧
      ∀ c, c ∈ subscribersOf (subscribeAll h room handles) room ↔
        c ∈ subscribersOf h room ∨ c ∈ handles.map Prod.fst := by
  induction handles with
  | nil => intro h _ _; simp [subscribeAll]
  | cons p ps ih =>
    intro h hd hfresh
    have hd1 : (p.1 :: ps.map Prod.fst).Nodup := hd
    have hd2 := List.nodup_cons.1 hd1
    have hp : p.1 ∉ subscribersOf h room := hfresh p.1 (by simp)
    have hfresh2 : ∀ c ∈ ps.map Prod.fst, c ∉ subscribersOf (subscribe h room p.1 p.2) room := by
      intro c hc
      rw [subscribersOf_subscribe, AList.mem_insert]
      rintro (rfl | hm)
      · exact hd2.1 hc
      · exact hfresh c (by simp only [List.map_cons, List.mem_cons]; exact Or.inr hc) hm
    obtain ⟨h1, h2⟩ := ih (subscribe h room p.1 p.2) hd2.2 hfresh2
    have hstep : subscribeAll h room (p :: ps) = subscribeAll (subscribe h room p.1 p.2) room ps :=
      rfl
    rw [hstep]
    constructor
    · rw [h1, subscribersOf_subscribe]
      simp only [len, AList.insert_entries_of_neg hp, List.length_cons]
      omega
    · intro c
      rw [h2, subscribersOf_subscribe, AList.mem_insert]
      simp only [List.map_cons, List.mem_cons]
      tauto

theorem unsubscribe_of_not_mem_set {h : Registry} {room : RoomID} {s : SubscriberSet} {c : Conn}
    (hl : h.lookup room = some s) (hc : c ∉ s) :
    unsubscribe h room c = if len s = 0 then h.erase room else h := by
  rw [unsubscribe_of_lookup c hl, erase_of_not_mem hc, replace_of_lookup hl]

/-! ## The claims about the registry -/

/-- C1 (as stated, refuted): after a connection subscribed to `r1` and a
broadcast to `r1` lost its only write, the key `r1` is still present in the
subscribers map although its subscriber set is empty. -/
theorem registry_key_with_empty_set :
    "r1" ∈ run lostSubscriber ∧ len (subscribersOf (run lostSubscriber) "r1") = 0 := by
  decide

/-- When no Notify loses the write to every subscriber of its room, a room key is
present if and only if its subscriber set is non-empty. -/
theorem mem_iff_of_noTotalFailure (ops : List Op) (hok : noTotalFailure newRegistry ops = true)
    (r : RoomID) : r ∈ run ops ↔ len (subscribersOf (run ops) r) ≠ 0 :=
  mem_iff_of_noEmptyRoom
    (noEmptyRoom_runFrom ops newRegistry (fun _ _ hl => by simp [newRegistry] at hl) hok) r

/-- The writes of a call of `notifyClients` go to the subscribers of the room,
one write each, in the order of the map. -/
theorem writesOf_notifyClients (fails : Conn → Bool) (h : Registry) (msg : Message) :
    writesOf (notifyClients fails h msg).trace = (subscribersOf h msg.RoomID).keys := by
  by_cases h0 : len (subscribersOf h msg.RoomID) = 0
  · rw [notifyClients_of_empty fails msg h0]
    have he : (subscribersOf h msg.RoomID).entries = [] := List.length_eq_zero.1 h0
    simp [writesOf, AList.keys, he]
  · cases hl : h.lookup msg.RoomID with
    | none => simp [subscribersOf, hl, len] at h0
    | some s =>
      rw [subscribersOf_of_lookup hl] at h0 ⊢
      rw [(notifyClients_of_lookup fails msg hl h0).1]
      simp only [writesOf_append, writesOf_writeEvents, writesOf_map_delete]
      simp [writesOf, AList.keys, List.keys]

/-- C2: for every registry, every event and every outcome `fails` of the writes,
`notifyClients` writes to every subscriber of the event room exactly once
(whatever fails), calls the cancel function of exactly the subscribers whose
write failed, leaves in the room exactly the subscribers whose write succeeded,
and leaves the map of every other room as it was. -/
theorem notifyClients_fan_out (fails : Conn → Bool) (h : Registry) (msg : Message) :
    writesOf (notifyClients fails h msg).trace = (subscribersOf h msg.RoomID).keys ∧
    cancelsOf (notifyClients fails h msg).trace =
      ((subscribersOf h msg.RoomID).entries.filter fun e => fails e.1).map Sigma.snd ∧
    (subscribersOf (notifyClients fails h msg).subscribers msg.RoomID).entries =
      (subscribersOf h msg.RoomID).entries.filter (fun e => !fails e.1) ∧
    ∀ r, r ≠ msg.RoomID → (notifyClients fails h msg).subscribers.lookup r = h.lookup r := by
  by_cases h0 : len (subscribersOf h msg.RoomID) = 0
  · rw [notifyClients_of_empty fails msg h0]
    have he : (subscribersOf h msg.RoomID).entries = [] := List.length_eq_zero.1 h0
    simp [writesOf, cancelsOf, AList.keys, he]
  · cases hl : h.lookup msg.RoomID with
    | none => simp [subscribersOf, hl, len] at h0
    | some s =>
      rw [subscribersOf_of_lookup hl] at h0 ⊢
      obtain ⟨h1, h2, h3⟩ := notifyClients_of_lookup fails msg hl h0
      refine ⟨?_, ?_, ?_, h3⟩
      · rw [← subscribersOf_of_lookup hl]
        exact writesOf_notifyClients fails h msg
      · rw [h1]
        simp only [cancelsOf_append, cancelsOf_writeEvents, cancelsOf_map_delete]
        simp [cancelsOf]
      · rw [subscribersOf_of_lookup h2]

/-- C3: starting from a registry in which room `R` has no subscribers, `N`
registrations for `R` with pairwise distinct connections leave `R` with exactly
`N` subscribers, namely those connections. -/
theorem subscribeAll_members (h : Registry) (R : RoomID) (handles : List (Conn × CancelFunc))
    (hd : (handles.map Prod.fst).Nodup) (h0 : len (subscribersOf h R) = 0) :
    len (subscribersOf (subscribeAll h R handles) R) = handles.length ∧
      ∀ c, c ∈ subscribersOf (subscribeAll h R handles) R ↔ c ∈ handles.map Prod.fst := by
  have hempty : subscribersOf h R = ∅ := (len_eq_zero_iff _).1 h0
  obtain ⟨h1, h2⟩ := subscribeAll_from R handles h hd (by
    intro c _
    rw [hempty]
    exact AList.not_mem_empty c)
  constructor
  · rw [h1, h0]
    omega
  · intro c
    rw [h2, hempty]
    simp

/-- Witness of C3: three connections subscribe to room `r1` of a registry that
only knows room `r2`. -/
theorem subscribeAll_members_witness :
    ([(1, 10), (2, 20), (3, 30)].map Prod.fst).Nodup ∧
      len (subscribersOf (subscribe newRegistry "r2" 9 90) "r1") = 0 ∧
      len (subscribersOf (subscribeAll (subscribe newRegistry "r2" 9 90) "r1"
        [(1, 10), (2, 20), (3, 30)]) "r1") = 3 :=
  ⟨by decide, by decide,
    (subscribeAll_members (subscribe newRegistry "r2" 9 90) "r1" [(1, 10), (2, 20), (3, 30)]
      (by decide) (by decide)).1⟩

/-- C4: the deferred cleanup of `handleSubscribe` is idempotent: run twice for
the same room and connection it leaves the registry as after the first run. -/
theorem unsubscribe_idempotent (h : Registry) (room : RoomID) (c : Conn) :
    unsubscribe (unsubscribe h room c) room c = unsubscribe h room c := by
  cases hl : h.lookup room with
  | none =>
    have hn : room ∉ h := AList.lookup_eq_none.1 hl
    rw [unsubscribe_of_not_mem c hn, unsubscribe_of_not_mem c hn]
  | some s =>
    rw [unsubscribe_of_lookup c hl]
    by_cases h0 : len (s.erase c) = 0
    · simp only [if_pos h0]
      exact unsubscribe_of_not_mem c (by simp [AList.mem_erase])
    · simp only [if_neg h0]
      have hl2 : (h.replace room (s.erase c)).lookup room = some (s.erase c) := by
        rw [lookup_replace_self, if_pos (mem_of_lookup hl)]
      rw [unsubscribe_of_not_mem_set hl2 (by simp [AList.mem_erase]), if_neg h0]

/-- C5 (as stated, refuted): after connection `1` subscribed to `r1` and a
broadcast to `r1` lost the write to it, connection `1` is not in the set of
`r1`, yet its deferred cleanup changes the registry: it removes the key `r1`. -/
theorem unsubscribe_changes_registry :
    1 ∉ subscribersOf (run lostSubscriber) "r1" ∧
      (run lostSubscriber).keys = ["r1"] ∧
      (unsubscribe (run lostSubscriber) "r1" 1).keys = [] ∧
      unsubscribe (run lostSubscriber) "r1" 1 ≠ run lostSubscriber := by
  refine ⟨by decide, by decide, by decide, ?_⟩
  intro heq
  have hk : (unsubscribe (run lostSubscriber) "r1" 1).keys = (run lostSubscriber).keys := by
    rw [heq]
  exact absurd hk (by decide)

/-- C5 (amended): when the room is absent or the connection is not in the set of
the room, the deferred cleanup of `handleSubscribe` leaves the subscriber set of
every room as it was; the registry itself is unchanged when the room is absent
or its set is non-empty, and when the key of the room is present with an empty
set the cleanup removes that key and nothing else. -/
theorem unsubscribe_nothing_to_remove (h : Registry) (room : RoomID) (c : Conn)
    (hc : room ∉ h ∨ c ∉ subscribersOf h room) :
    (∀ r, subscribersOf (unsubscribe h room c) r = subscribersOf h r) ∧
      (room ∉ h ∨ len (subscribersOf h room) ≠ 0 → unsubscribe h room c = h) ∧
      (room ∈ h → len (subscribersOf h room) = 0 → unsubscribe h room c = h.erase room) := by
  cases hl : h.lookup room with
  | none =>
    have hn : room ∉ h := AList.lookup_eq_none.1 hl
    rw [unsubscribe_of_not_mem c hn]
    exact ⟨fun _ => rfl, fun _ => rfl, fun hm => absurd hm hn⟩
  | some s =>
    have hm : room ∈ h := mem_of_lookup hl
    have hcs : c ∉ s := by
      rcases hc with hn | hcs
      · exact absurd hm hn
      · rwa [subscribersOf_of_lookup hl] at hcs
    rw [unsubscribe_of_not_mem_set hl hcs, subscribersOf_of_lookup hl]
    by_cases h0 : len s = 0
    · rw [if_pos h0]
      refine ⟨?_, ?_, fun _ _ => rfl⟩
      · intro r
        by_cases hr : r = room
        · subst hr
          rw [subscribersOf_of_lookup hl, (len_eq_zero_iff s).1 h0]
          simp [subscribersOf, AList.lookup_erase]
        · simp [subscribersOf, AList.lookup_erase_ne hr]
      · rintro (hn | hne)
        · exact absurd hm hn
        · exact absurd h0 hne
    · rw [if_neg h0]
      exact ⟨fun _ => rfl, fun _ => rfl, fun _ hz => absurd hz h0⟩

/-- Witness of C5 (amended): connection `7` never subscribed to room `r1`, which
holds one other connection; its cleanup leaves the registry as it was. -/
theorem unsubscribe_nothing_to_remove_witness :
    ("r1" ∉ run survivingSubscriber ∨ 7 ∉ subscribersOf (run survivingSubscriber) "r1") ∧
      unsubscribe (run survivingSubscriber) "r1" 7 = run survivingSubscriber :=
  ⟨Or.inr (by decide),
    (unsubscribe_nothing_to_remove (run survivingSubscriber) "r1" 7 (Or.inr (by decide))).2.1
      (Or.inr (by decide))⟩

/-- C6: when the subscriber set of room `R` is exactly `{c}`, the deferred
cleanup of `handleSubscribe` for `(R, c)` removes the key `R` from the
subscribers map: no empty set is left behind. -/
theorem unsubscribe_last_removes_key (h : Registry) (R : RoomID) (c : Conn)
    (hs : (subscribersOf h R).keys = [c]) :
    R ∉ unsubscribe h R c ∧ (unsubscribe h R c).lookup R = none := by
  have hnone : (unsubscribe h R c).lookup R = none := by
    rw [lookup_unsubscribe_self]
    have hk : ((subscribersOf h R).erase c).keys = [] := by
      rw [AList.keys_erase, hs]
      simp
    have h0 : len ((subscribersOf h R).erase c) = 0 := by
      have := congrArg List.length hk
      simpa [len, AList.keys, List.keys] using this
    rw [if_pos h0]
  exact ⟨AList.lookup_eq_none.1 hnone, hnone⟩

/-- Witness of C6: the only subscriber of room `r1` leaves. -/
theorem unsubscribe_last_removes_key_witness :
    (subscribersOf (subscribe newRegistry "r1" 1 10) "r1").keys = [1] ∧
      "r1" ∉ unsubscribe (subscribe newRegistry "r1" 1 10) "r1" 1 :=
  ⟨by decide, (unsubscribe_last_removes_key (subscribe newRegistry "r1" 1 10) "r1" 1
    (by decide)).1⟩

/-! ## The claims about one connection -/

/-- C7 (as stated, refuted): on a connection accepted at time 0, a data frame
read at second 10 leaves the read deadline at second 60, not at second 70,
whichever of the two loops reads it. -/
theorem data_frame_keeps_deadline :
    bothReading.readLoop = Pc.reading ∧ bothReading.pingRoutine = Pc.reading ∧
      (readLoopRead (10 * Second) bothReading (Inbound.data plainFrame)).readDeadline =
        60 * Second ∧
      (pingRoutineRead (10 * Second) bothReading (Inbound.data plainFrame)).readDeadline =
        60 * Second ∧
      (readLoopRead (10 * Second) bothReading (Inbound.data plainFrame)).readDeadline ≠
        10 * Second + 60 * Second := by
  decide

/-- C8 (as stated, refuted): when the first ping write of a connection fails, the
ping routine returns, the context is not cancelled and the reading loop is still
at its `select`, from which it goes on to read. -/
theorem ping_failure_without_cancel :
    (pingRoutineSelect (start 0) (SelectCase.tick false)).pingRoutine = Pc.returned ∧
      (pingRoutineSelect (start 0) (SelectCase.tick false)).ctxDone = false ∧
      (readLoopSelect (pingRoutineSelect (start 0) (SelectCase.tick false))).readLoop =
        Pc.reading := by
  decide

/-- C8 (amended): whenever the ping write of the ping routine fails, the ping
routine returns and nothing else changes: the cancellation signal is not fired,
the message reading loop stays where it is and the read deadline is not
moved. -/
theorem ping_failure_returns (h : Handler) (hs : h.pingRoutine = Pc.select) :
    (pingRoutineSelect h (SelectCase.tick false)).pingRoutine = Pc.returned ∧
      (pingRoutineSelect h (SelectCase.tick false)).ctxDone = h.ctxDone ∧
      (pingRoutineSelect h (SelectCase.tick false)).readLoop = h.readLoop ∧
      (pingRoutineSelect h (SelectCase.tick false)).readDeadline = h.readDeadline := by
  simp [pingRoutineSelect, hs]

/-- Witness of C8 (amended): the first ping write of a connection fails. -/
theorem ping_failure_returns_witness :
    (start 0).pingRoutine = Pc.select ∧
      (pingRoutineSelect (start 0) (SelectCase.tick false)).ctxDone = (start 0).ctxDone :=
  ⟨by decide, (ping_failure_returns (start 0) (by decide)).2.1⟩

/-- C9 (the code at the failing input): a `client_ping` frame read by the
message reading loop is dropped, nothing is written in reply; the same frame
read by the ping routine is answered with one `server_pong` text frame, and
either loop goes on. -/
theorem client_ping_dropped_by_read_loop :
    isClientPing clientPingFrame = true ∧
      bothReading.readLoop = Pc.reading ∧ bothReading.pingRoutine = Pc.reading ∧
      (readLoopRead (5 * Second) bothReading (Inbound.data clientPingFrame)).sent =
        bothReading.sent ∧
      (readLoopRead (5 * Second) bothReading (Inbound.data clientPingFrame)).readLoop =
        Pc.select ∧
      (pingRoutineRead (5 * Second) bothReading (Inbound.data clientPingFrame)).sent =
        bothReading.sent ++ [Outbound.text serverPong] ∧
      (pingRoutineRead (5 * Second) bothReading (Inbound.data clientPingFrame)).pingRoutine =
        Pc.select := by
  decide

/-! ## The claim about the mutex -/

theorem writesUnderLock_held_append (body rest : List Event)
    (hb : ∀ e ∈ body, isMutexOp e = false) :
    writesUnderLock true (body ++ rest) = writesOf body ++ writesUnderLock true rest := by
  induction body with
  | nil => rfl
  | cons e body ih =>
    have ih2 := ih fun e2 h2 => hb e2 (List.mem_cons_of_mem _ h2)
    have he := hb e (List.mem_cons_self _ _)
    cases e with
    | lock => simp [isMutexOp] at he
    | unlock => simp [isMutexOp] at he
    | lookup r => simpa [writesUnderLock, writesOf] using ih2
    | writeJSON c m => simpa [writesUnderLock, writesOf] using ih2
    | cancel f => simpa [writesUnderLock, writesOf] using ih2
    | delete c => simpa [writesUnderLock, writesOf] using ih2

theorem isMutexOp_writeEvents (fails : Conn → Bool) (msg : Message)
    (es : List (Sigma fun _ : Conn => CancelFunc)) :
    ∀ e ∈ (es.map (writeEvents fails msg)).flatten, isMutexOp e = false := by
  intro e he
  obtain ⟨l, hl, hel⟩ := List.mem_flatten.1 he
  obtain ⟨x, _, rfl⟩ := List.mem_map.1 hl
  by_cases hf : fails x.1 = true
  · simp only [writeEvents, hf, if_true, List.mem_cons, List.mem_singleton] at hel
    rcases hel with rfl | rfl | h
    · rfl
    · rfl
    · cases h
  · have hf2 : fails x.1 = false := by simpa using hf
    rw [writeEvents, hf2] at hel
    rw [List.mem_singleton.1 hel]
    rfl

/-- The events of a call of `notifyClients` between taking and releasing the
mutex. -/
theorem notifyClients_trace_shape (fails : Conn → Bool) (h : Registry) (msg : Message) :
    ∃ body, (notifyClients fails h msg).trace = Event.lock :: (body ++ [Event.unlock]) ∧
      (∀ e ∈ body, isMutexOp e = false) ∧
      writesOf body = writesOf (notifyClients fails h msg).trace := by
  by_cases h0 : len (subscribersOf h msg.RoomID) = 0
  · rw [notifyClients_of_empty fails msg h0]
    refine ⟨[Event.lookup msg.RoomID], rfl, ?_, rfl⟩
    intro e he
    rw [List.mem_singleton.1 he]
    rfl
  · cases hl : h.lookup msg.RoomID with
    | none => simp [subscribersOf, hl, len] at h0
    | some s =>
      rw [subscribersOf_of_lookup hl] at h0
      obtain ⟨h1, _, _⟩ := notifyClients_of_lookup fails msg hl h0
      rw [h1]
      refine ⟨Event.lookup msg.RoomID :: ((s.entries.map (writeEvents fails msg)).flatten ++
        ((s.entries.filter fun e => fails e.1).map Sigma.fst).map Event.delete), ?_, ?_, ?_⟩
      · simp
      · intro e he
        rcases List.mem_cons.1 he with rfl | he
        · rfl
        · rcases List.mem_append.1 he with he | he
          · exact isMutexOp_writeEvents fails msg s.entries e he
          · obtain ⟨c, _, rfl⟩ := List.mem_map.1 he
            rfl
      · simp [writesOf, List.filterMap_append]

/-- C10 (as stated, refuted): when room `r1` has one subscriber, the write to it
is performed while the registry mutex is held. -/
theorem write_while_mutex_held :
    writesUnderLock false
      (notifyClients (fun _ => false) (subscribe newRegistry "r1" 1 1) sampleMessage).trace = [1] := by
  decide

/-- C10 (amended): in every execution of `notifyClients` the registry mutex is
taken first and released last, with no release in between, so every network
write to a subscriber is performed while the mutex is held; the writes under the
mutex are the writes to all subscribers of the room. -/
theorem notifyClients_writes_under_lock (fails : Conn → Bool) (h : Registry) (msg : Message) :
    (∃ body, (notifyClients fails h msg).trace = Event.lock :: (body ++ [Event.unlock]) ∧
      ∀ e ∈ body, isMutexOp e = false) ∧
    writesUnderLock false (notifyClients fails h msg).trace =
      writesOf (notifyClients fails h msg).trace ∧
    writesUnderLock false (notifyClients fails h msg).trace = (subscribersOf h msg.RoomID).keys := by
  obtain ⟨body, hb, hm, hw⟩ := notifyClients_trace_shape fails h msg
  have hu : writesUnderLock false (notifyClients fails h msg).trace =
      writesOf (notifyClients fails h msg).trace := by
    rw [← hw, hb]
    show writesUnderLock true (body ++ [Event.unlock]) = writesOf body
    rw [writesUnderLock_held_append body _ hm]
    simp [writesUnderLock]
  exact ⟨⟨body, hb, hm⟩, hu, hu.trans (writesOf_notifyClients fails h msg)⟩

/-! ## White space and lengths -/

theorem dropWhile_reverse_dropWhile_eq_nil (p : Char → Bool) (l : List Char) :
    (l.dropWhile p).reverse.dropWhile p = [] ↔ l.dropWhile p = [] := by
  constructor
  · intro h
    by_contra hne
    have hall : ∀ x ∈ (l.dropWhile p).reverse, p x = true := List.dropWhile_eq_nil_iff.1 h
    have hhead := List.head_dropWhile_not p l hne
    have hmem : (l.dropWhile p).head hne ∈ (l.dropWhile p).reverse :=
      List.mem_reverse.2 (List.head_mem hne)
    rw [hall _ hmem] at hhead
    exact absurd hhead (by simp)
  · intro h
    rw [h]
    rfl

theorem trimSpace_eq_empty_iff (s : String) : TrimSpace s = "" ↔ isBlank s = true := by
  have h1 : TrimSpace s = "" ↔ (s.data.dropWhile isSpace).reverse.dropWhile isSpace = [] := by
    unfold TrimSpace
    constructor
    · intro h
      have h2 := congrArg String.data h
      simpa using h2
    · intro h
      rw [h]
      rfl
  rw [h1, dropWhile_reverse_dropWhile_eq_nil, List.dropWhile_eq_nil_iff]
  unfold isBlank
  cases s.data with
  | nil => simp
  | cons c cs => simp

theorem utf8ByteSize_go_replicate (n : Nat) (c : Char) :
    String.utf8ByteSize.go (List.replicate n c) = n * c.utf8Size := by
  induction n with
  | zero => simp [String.utf8ByteSize.go]
  | succ n ih =>
    rw [List.replicate_succ, String.utf8ByteSize.go, ih]
    ring

theorem byteLen_replicate (n : Nat) (c : Char) :
    byteLen (String.mk (List.replicate n c)) = n * c.utf8Size :=
  utf8ByteSize_go_replicate n c

theorem isBlank_replicate_succ (n : Nat) (c : Char) (hc : isSpace c = false) :
    isBlank (String.mk (List.replicate (n + 1) c)) = false := by
  simp [isBlank, List.replicate_succ, hc]

/-- What `ValidateMessage` decides: a message passes exactly when it is not blank
and its UTF-8 encoding has at most `MaxMessageLength` bytes. -/
theorem validateMessage_eq (message : String) :
    ValidateMessage message =
      if isBlank message then some ValidationError.ErrEmptyMessage
      else if byteLen message > MaxMessageLength then some ValidationError.ErrMessageTooLong
      else none := by
  unfold ValidateMessage
  by_cases hb : isBlank message = true
  · rw [if_pos ((trimSpace_eq_empty_iff message).2 hb), if_pos hb]
  · rw [if_neg (fun h => hb ((trimSpace_eq_empty_iff message).1 h)), if_neg hb]

/-! ## The claims about the wire shape and the validators -/

/-- C12 (the code at the failing input): the message of 1001 letters U+00E9 is
not blank and has 1001 characters, at most `MaxMessageLength`, but 2002 bytes,
and `ValidateMessage` rejects it with `ErrMessageTooLong`. -/
theorem validateMessage_counts_bytes :
    isBlank accentedMessage = false ∧ accentedMessage.length = 1001 ∧
      accentedMessage.length ≤ MaxMessageLength ∧ byteLen accentedMessage = 2002 ∧
      ValidateMessage accentedMessage = some ValidationError.ErrMessageTooLong := by
  have hb : isBlank accentedMessage = false := isBlank_replicate_succ 1000 _ (by decide)
  have hl : accentedMessage.length = 1001 := List.length_replicate 1001 (Char.ofNat 0xE9)
  have hn : byteLen accentedMessage = 2002 := by
    have h2 : (Char.ofNat 0xE9).utf8Size = 2 := by decide
    show byteLen (String.mk (List.replicate 1001 (Char.ofNat 0xE9))) = 2002
    rw [byteLen_replicate, h2]
  refine ⟨hb, hl, ?_, hn, ?_⟩
  · rw [hl]
    decide
  · rw [validateMessage_eq, hb, hn]
    decide

/-- C13: `ValidateAuthor` returns an error exactly when the author ID or the
author name is blank (empty or white space only): `ErrInvalidAuthorID` whenever
the ID is blank, `ErrInvalidAuthorName` when only the name is blank, and `nil`
otherwise. -/
theorem validateAuthor_spec (authorID authorName : String) :
    ((ValidateAuthor authorID authorName).isSome = true ↔
        isBlank authorID = true ∨ isBlank authorName = true) ∧
      ValidateAuthor authorID authorName =
        if isBlank authorID then some ValidationError.ErrInvalidAuthorID
        else if isBlank authorName then some ValidationError.ErrInvalidAuthorName
        else none := by
  have heq : ValidateAuthor authorID authorName =
      if isBlank authorID then some ValidationError.ErrInvalidAuthorID
      else if isBlank authorName then some ValidationError.ErrInvalidAuthorName
      else none := by
    unfold ValidateAuthor
    by_cases h1 : isBlank authorID = true
    · rw [if_pos ((trimSpace_eq_empty_iff authorID).2 h1), if_pos h1]
    · rw [if_neg (fun h => h1 ((trimSpace_eq_empty_iff authorID).1 h)), if_neg h1]
      by_cases h2 : isBlank authorName = true
      · rw [if_pos ((trimSpace_eq_empty_iff authorName).2 h2), if_pos h2]
      · rw [if_neg (fun h => h2 ((trimSpace_eq_empty_iff authorName).1 h)), if_neg h2]
  refine ⟨?_, heq⟩
  rw [heq]
  by_cases h1 : isBlank authorID = true
  · simp [h1]
  · by_cases h2 : isBlank authorName = true
    · simp [h1, h2]
    · simp [h1, h2]

/-! ## Rooms drained by a broadcast -/

theorem filter_succeeded_eq_nil_iff (fails : Conn → Bool) (s : SubscriberSet) :
    (s.entries.filter fun e => !fails e.1) = [] ↔ s.keys.all fails = true := by
  rw [List.filter_eq_nil_iff, List.all_eq_true]
  constructor
  · intro h k hk
    obtain ⟨v, hv⟩ := List.mem_keys.1 hk
    simpa using h _ hv
  · intro h e he
    have := h e.1 (List.mem_keys_of_mem he)
    simp [this]

theorem roomStatus_subscribe {h : Registry} {d : Bool} {r : RoomID} (hi : RoomStatus h d r)
    (room : RoomID) (c : Conn) (cancel : CancelFunc) :
    RoomStatus (subscribe h room c cancel) (drainedStep r h d (Op.subscribe room c cancel)) r := by
  by_cases hr : room = r
  · subst hr
    simp only [drainedStep, if_pos]
    rw [RoomStatus, lookup_subscribe_self]
    refine ⟨fun _ => rfl, ?_⟩
    intro s hs
    cases hs
    simp [len, AList.insert_entries]
  · simp only [drainedStep, if_neg hr]
    rw [RoomStatus, lookup_subscribe_ne h c cancel (Ne.symm hr)]
    exact hi

theorem roomStatus_unsubscribe {h : Registry} {d : Bool} {r : RoomID} (hi : RoomStatus h d r)
    (room : RoomID) (c : Conn) :
    RoomStatus (unsubscribe h room c) (drainedStep r h d (Op.unsubscribe room c)) r := by
  by_cases hr : room = r
  · subst hr
    simp only [drainedStep, if_pos]
    rw [RoomStatus, lookup_unsubscribe_self]
    refine ⟨fun _ => rfl, ?_⟩
    intro s hs
    by_cases h0 : len ((subscribersOf h room).erase c) = 0
    · rw [if_pos h0] at hs
      cases hs
    · rw [if_neg h0] at hs
      cases hs
      simp [h0]
  · simp only [drainedStep, if_neg hr]
    rw [RoomStatus, lookup_unsubscribe_ne h c (Ne.symm hr)]
    exact hi

theorem roomStatus_notify {h : Registry} {d : Bool} {r : RoomID} (hi : RoomStatus h d r)
    (fails : Conn → Bool) (msg : Message) :
    RoomStatus (notifyClients fails h msg).subscribers
      (drainedStep r h d (Op.notify fails msg)) r := by
  by_cases h0 : len (subscribersOf h msg.RoomID) = 0
  · have hf : allWritesFail fails h msg = false := by simp [allWritesFail, h0]
    rw [notifyClients_of_empty fails msg h0]
    simp only [drainedStep, hf]
    simpa using hi
  · cases hl : h.lookup msg.RoomID with
    | none => simp [subscribersOf, hl, len] at h0
    | some s =>
      rw [subscribersOf_of_lookup hl] at h0
      obtain ⟨_, h2, h3⟩ := notifyClients_of_lookup fails msg hl h0
      have hall : allWritesFail fails h msg = s.keys.all fails := by
        simp [allWritesFail, subscribersOf_of_lookup hl, h0]
      by_cases hr : msg.RoomID = r
      · subst hr
        have hd : d = false := by
          cases d with
          | false => rfl
          | true => exact absurd ((hi.2 s hl).2 rfl) h0
        subst hd
        rw [RoomStatus, h2]
        refine ⟨fun hn => (by cases hn), ?_⟩
        intro t ht
        cases ht
        have hlen : len (⟨s.entries.filter fun e => !fails e.1,
            List.NodupKeys.sublist (List.filter_sublist _) s.nodupKeys⟩ : SubscriberSet) = 0 ↔
            s.keys.all fails = true := by
          rw [← filter_succeeded_eq_nil_iff]
          exact List.length_eq_zero
        rw [hlen]
        simp [drainedStep, hall]
      · simp only [drainedStep, hr, false_and, if_false]
        rw [RoomStatus, h3 r (Ne.symm hr)]
        exact hi

theorem roomStatus_step {h : Registry} {d : Bool} {r : RoomID} (hi : RoomStatus h d r)
    (op : Op) : RoomStatus (step h op) (drainedStep r h d op) r := by
  cases op with
  | subscribe room c cancel => exact roomStatus_subscribe hi room c cancel
  | unsubscribe room c => exact roomStatus_unsubscribe hi room c
  | notify fails msg => exact roomStatus_notify hi fails msg

theorem roomStatus_runFrom (r : RoomID) (ops : List Op) :
    ∀ (h : Registry) (d : Bool), RoomStatus h d r →
      RoomStatus (runFrom h ops) (drainedFrom r h d ops) r := by
  induction ops with
  | nil => intro h d hi; exact hi
  | cons op ops ih =>
    intro h d hi
    exact ih (step h op) (drainedStep r h d op) (roomStatus_step hi op)

theorem roomStatus_run (ops : List Op) (r : RoomID) : RoomStatus (run ops) (drained ops r) r :=
  roomStatus_runFrom r ops newRegistry false
    ⟨fun _ => rfl, fun s hs => by simp [newRegistry] at hs⟩

/-- C1 (amended): in every registry state reached from the empty registry by any
sequence of Subscribe, Unsubscribe and Notify steps, a room key is present with
an empty subscriber set exactly when the room is drained, that is, when the last
step among the Subscribes and Unsubscribes for the room and the Notifies that
lost the write to every subscriber of the room is such a Notify; for every room
that is not drained the key is present if and only if the subscriber set is
non-empty. -/
theorem registry_key_iff_nonempty (ops : List Op) (r : RoomID) :
    ((r ∈ run ops ∧ len (subscribersOf (run ops) r) = 0) ↔ drained ops r = true) ∧
      (drained ops r = false → (r ∈ run ops ↔ len (subscribersOf (run ops) r) ≠ 0)) := by
  have hi := roomStatus_run ops r
  cases hl : (run ops).lookup r with
  | none =>
    have hn : r ∉ run ops := AList.lookup_eq_none.1 hl
    have hd : drained ops r = false := hi.1 hl
    have h0 : len (subscribersOf (run ops) r) = 0 := by
      rw [subscribersOf_of_not_mem hn]
      rfl
    refine ⟨?_, ?_⟩
    · rw [hd]
      constructor
      · intro h
        exact absurd h.1 hn
      · intro h
        cases h
    · intro _
      constructor
      · intro h
        exact absurd h hn
      · intro h
        exact absurd h0 h
  | some s =>
    have hm : r ∈ run ops := mem_of_lookup hl
    have hs := hi.2 s hl
    rw [subscribersOf_of_lookup hl]
    refine ⟨?_, ?_⟩
    · constructor
      · intro h
        exact hs.1 h.2
      · intro h
        exact ⟨hm, hs.2 h⟩
    · intro hd
      constructor
      · intro _ h0
        have := hs.1 h0
        rw [hd] at this
        cases this
      · intro _
        exact hm

/-- Witness of C1 (amended): after the lost connection ran its cleanup and a new
connection subscribed to `r1`, the room is not drained, and its key is present
with a non-empty set. -/
theorem registry_key_iff_nonempty_witness :
    drained lostSubscriber "r1" = true ∧ drained reapedAndResubscribed "r1" = false ∧
      ("r1" ∈ run reapedAndResubscribed ↔
        len (subscribersOf (run reapedAndResubscribed) "r1") ≠ 0) :=
  ⟨by decide, by decide, (registry_key_iff_nonempty reapedAndResubscribed "r1").2 (by decide)⟩

/-! ## The read deadline along a run -/

theorem readDeadline_readLoopRead_data (t : Time) (h : Handler) (d : DataFrame) :
    (readLoopRead t h (Inbound.data d)).readDeadline = h.readDeadline := by
  by_cases hr : h.readLoop = Pc.reading <;> simp [readLoopRead, hr, readMessage]

theorem readDeadline_pingRoutineRead_data (t : Time) (h : Handler) (d : DataFrame) :
    (pingRoutineRead t h (Inbound.data d)).readDeadline = h.readDeadline := by
  by_cases hp : h.pingRoutine = Pc.reading
  · by_cases hc : isClientPing d = true <;> simp [pingRoutineRead, hp, readMessage, hc]
  · simp [pingRoutineRead, hp]

theorem readDeadline_readLoopRead_pong (t : Time) (h : Handler) :
    (readLoopRead t h Inbound.pong).readDeadline =
      if h.readLoop = Pc.reading then t + 60 * Second else h.readDeadline := by
  by_cases hr : h.readLoop = Pc.reading <;>
    simp [readLoopRead, hr, readMessage, pongHandler, setReadDeadline]

theorem readDeadline_pingRoutineRead_pong (t : Time) (h : Handler) :
    (pingRoutineRead t h Inbound.pong).readDeadline =
      if h.pingRoutine = Pc.reading then t + 60 * Second else h.readDeadline := by
  by_cases hp : h.pingRoutine = Pc.reading <;>
    simp [pingRoutineRead, hp, readMessage, pongHandler, setReadDeadline]

theorem readDeadline_handlerStep (h : Handler) (last : Time) (i : Input)
    (hd : h.readDeadline = last + 60 * Second) :
    (handlerStep h i).readDeadline = refreshStep h last i + 60 * Second := by
  cases i with
  | pingSelect sc =>
    simp only [handlerStep, refreshStep]
    rw [← hd]
    by_cases hs : h.pingRoutine = Pc.select
    · cases sc with
      | tick ok => cases ok <;> simp [pingRoutineSelect, hs]
      | done => by_cases hc : h.ctxDone = true <;> simp [pingRoutineSelect, hs, hc]
    · simp [pingRoutineSelect, hs]
  | pingRead now f =>
    cases f with
    | data d => simp only [handlerStep, refreshStep, readDeadline_pingRoutineRead_data, hd]
    | pong =>
      simp only [handlerStep, refreshStep, readDeadline_pingRoutineRead_pong]
      by_cases hp : h.pingRoutine = Pc.reading <;> simp [hp, hd]
    | failure u =>
      simp only [handlerStep, refreshStep]
      rw [← hd]
      by_cases hp : h.pingRoutine = Pc.reading <;> simp [pingRoutineRead, hp, readMessage]
  | readSelect =>
    simp only [handlerStep, refreshStep]
    rw [← hd]
    by_cases hs : h.readLoop = Pc.select
    · by_cases hc : h.ctxDone = true <;> simp [readLoopSelect, hs, hc]
    · simp [readLoopSelect, hs]
  | readRead now f =>
    cases f with
    | data d => simp only [handlerStep, refreshStep, readDeadline_readLoopRead_data, hd]
    | pong =>
      simp only [handlerStep, refreshStep, readDeadline_readLoopRead_pong]
      by_cases hr : h.readLoop = Pc.reading <;> simp [hr, hd]
    | failure u =>
      simp only [handlerStep, refreshStep]
      rw [← hd]
      by_cases hr : h.readLoop = Pc.reading <;> simp [readLoopRead, hr, readMessage]
  | cancel =>
    simp only [handlerStep, refreshStep, fireCancel, hd]

theorem readDeadline_runHandlerFrom (inputs : List Input) :
    ∀ (h : Handler) (last : Time), h.readDeadline = last + 60 * Second →
      (runHandlerFrom h inputs).readDeadline = lastRefreshFrom h last inputs + 60 * Second := by
  induction inputs with
  | nil => intro h last hd; exact hd
  | cons i inputs ih =>
    intro h last hd
    exact ih (handlerStep h i) (refreshStep h last i) (readDeadline_handlerStep h last i hd)

/-- C7 (amended): the read deadline is set to `t` plus 60 seconds when the
connection is set up at time `t` and whenever a pong is read at time `t`, by
whichever loop is inside `c.ReadMessage()`; a data frame leaves the read deadline
as it was, whichever loop reads it; so after every run of a connection set up at
`t0` the read deadline is the time of the setup or of the last pong read, plus
60 seconds. -/
theorem read_deadline_refresh (t : Time) (h : Handler) (d : DataFrame) (t0 : Time)
    (inputs : List Input) :
    (start t).readDeadline = t + 60 * Second ∧
      (h.readLoop = Pc.reading →
        (readLoopRead t h Inbound.pong).readDeadline = t + 60 * Second) ∧
      (h.pingRoutine = Pc.reading →
        (pingRoutineRead t h Inbound.pong).readDeadline = t + 60 * Second) ∧
      (readLoopRead t h (Inbound.data d)).readDeadline = h.readDeadline ∧
      (pingRoutineRead t h (Inbound.data d)).readDeadline = h.readDeadline ∧
      (runHandler t0 inputs).readDeadline = lastRefresh t0 inputs + 60 * Second := by
  refine ⟨rfl, ?_, ?_, readDeadline_readLoopRead_data t h d,
    readDeadline_pingRoutineRead_data t h d,
    readDeadline_runHandlerFrom inputs (start t0) t0 rfl⟩
  · intro hr
    rw [readDeadline_readLoopRead_pong, if_pos hr]
  · intro hp
    rw [readDeadline_pingRoutineRead_pong, if_pos hp]

/-- Witness of C7 (amended): in the first seconds of a connection, before the
ticker fires, a pong read by the message reading loop at second 10 moves the read
deadline to second 70 and a data frame leaves it at second 60; after the sample
run, whose last pong was read at second 20, the read deadline is second 80. -/
theorem read_deadline_refresh_witness :
    firstSeconds.readLoop = Pc.reading ∧ firstSeconds.pingRoutine = Pc.select ∧
      (readLoopRead (10 * Second) firstSeconds Inbound.pong).readDeadline =
        10 * Second + 60 * Second ∧
      (readLoopRead (10 * Second) firstSeconds (Inbound.data plainFrame)).readDeadline =
        firstSeconds.readDeadline ∧
      lastRefresh 0 sampleRun = 20 * Second ∧
      (runHandler 0 sampleRun).readDeadline = lastRefresh 0 sampleRun + 60 * Second :=
  ⟨by decide, by decide,
    (read_deadline_refresh (10 * Second) firstSeconds plainFrame 0 sampleRun).2.1 (by decide),
    (read_deadline_refresh (10 * Second) firstSeconds plainFrame 0 sampleRun).2.2.2.1,
    by decide,
    (read_deadline_refresh (10 * Second) firstSeconds plainFrame 0 sampleRun).2.2.2.2.2⟩

/-! ## The payload of a broadcast -/

theorem payloadsOf_append (a b : List Event) :
    payloadsOf (a ++ b) = payloadsOf a ++ payloadsOf b :=
  List.filterMap_append _ _ _

theorem payloadsOf_writeEvents (fails : Conn → Bool) (msg : Message)
    (es : List (Sigma fun _ : Conn => CancelFunc)) :
    payloadsOf (es.map (writeEvents fails msg)).flatten =
      (es.map Sigma.fst).map fun c => (c, marshalMessage msg) := by
  induction es with
  | nil => rfl
  | cons e es ih =>
    rw [List.map_cons, List.flatten_cons, payloadsOf_append, ih]
    by_cases hf : fails e.1 = true <;> simp [writeEvents, hf, payloadsOf]

theorem payloadsOf_map_delete (fc : List Conn) : payloadsOf (fc.map Event.delete) = [] := by
  induction fc with
  | nil => rfl
  | cons c fc ih => simp [payloadsOf]

/-- Every write of a call of `notifyClients` hands the encoding of the event to a
subscriber of the room, one write per subscriber. -/
theorem payloadsOf_notifyClients (fails : Conn → Bool) (h : Registry) (msg : Message) :
    payloadsOf (notifyClients fails h msg).trace =
      (subscribersOf h msg.RoomID).keys.map fun c => (c, marshalMessage msg) := by
  by_cases h0 : len (subscribersOf h msg.RoomID) = 0
  · rw [notifyClients_of_empty fails msg h0]
    have he : (subscribersOf h msg.RoomID).entries = [] := List.length_eq_zero.1 h0
    simp [payloadsOf, AList.keys, he]
  · cases hl : h.lookup msg.RoomID with
    | none => simp [subscribersOf, hl, len] at h0
    | some s =>
      rw [subscribersOf_of_lookup hl] at h0 ⊢
      rw [(notifyClients_of_lookup fails msg hl h0).1]
      simp only [payloadsOf_append, payloadsOf_writeEvents, payloadsOf_map_delete]
      simp [payloadsOf, AList.keys, List.keys]

theorem marshalMessage_of_value {m : Message} {v : JsonValue} (hv : marshal m.Value = some v) :
    marshalMessage m =
      some (JsonValue.obj
        [("kind", JsonValue.str m.Kind), ("value", v), ("room_id", JsonValue.str m.RoomID)]) := by
  simp [marshalMessage, messageStruct, marshal, marshalFields, hv]

theorem marshalMessage_of_value_error {m : Message} (hv : marshal m.Value = none) :
    marshalMessage m = none := by
  simp [marshalMessage, messageStruct, marshal, marshalFields, hv]

/-- C11 (as stated, refuted): a `Message` whose `Value` is a channel has no JSON
encoding, so `conn.WriteJSON` returns an error and what it hands to the
subscriber of the room is empty, not an object with three keys. -/
theorem unsupported_value_has_no_encoding :
    marshalMessage channelMessage = none ∧
      writeJSONFails (fun _ => false) channelMessage 1 = true ∧
      payloadsOf (notifyClients (writeJSONFails (fun _ => false) channelMessage)
        (subscribe newRegistry "r1" 1 1) channelMessage).trace = [(1, none)] := by
  refine ⟨rfl, rfl, rfl⟩

/-- C11 (amended): for every `Message` whose `Value` has a JSON encoding `v`, the
encoding that `conn.WriteJSON` hands to every subscriber of the room is an
object with exactly the three keys `kind`, `room_id` and `value`, where `kind`
carries `Message.Kind`, `room_id` carries `Message.RoomID` and `value` carries
`v`; when `Value` has no JSON encoding the `Message` has none either, every
`conn.WriteJSON` returns an error and hands nothing to the subscriber. -/
theorem message_wire_shape (transportFails : Conn → Bool) (h : Registry) (m : Message) :
    (∀ v, marshal m.Value = some v →
      ∃ fields, marshalMessage m = some (JsonValue.obj fields) ∧
        fields = [("kind", JsonValue.str m.Kind), ("value", v),
          ("room_id", JsonValue.str m.RoomID)] ∧
        List.Perm (fields.map Prod.fst) ["kind", "room_id", "value"] ∧
        fields.lookup "kind" = some (JsonValue.str m.Kind) ∧
        fields.lookup "room_id" = some (JsonValue.str m.RoomID) ∧
        fields.lookup "value" = some v ∧
        payloadsOf (notifyClients (writeJSONFails transportFails m) h m).trace =
          (subscribersOf h m.RoomID).keys.map fun c => (c, some (JsonValue.obj fields))) ∧
      (marshal m.Value = none →
        marshalMessage m = none ∧ (∀ c, writeJSONFails transportFails m c = true) ∧
          payloadsOf (notifyClients (writeJSONFails transportFails m) h m).trace =
            (subscribersOf h m.RoomID).keys.map fun c => (c, none)) := by
  constructor
  · intro v hv
    have hm := marshalMessage_of_value hv
    refine ⟨_, hm, rfl, ?_, rfl, rfl, rfl, ?_⟩
    · exact List.Perm.cons _ (List.Perm.swap _ _ _)
    · rw [payloadsOf_notifyClients, hm]
  · intro hv
    have hm := marshalMessage_of_value_error hv
    refine ⟨hm, ?_, ?_⟩
    · intro c
      simp [writeJSONFails, hm]
    · rw [payloadsOf_notifyClients, hm]

/-- Witness of C11 (amended): a `message_reaction_increased` event broadcast to a
room with two subscribers. -/
theorem message_wire_shape_witness :
    marshal reactionMessage.Value =
        some (JsonValue.obj [("id", JsonValue.str "m1"), ("count", JsonValue.number 3)]) ∧
      marshalMessage reactionMessage =
        some (JsonValue.obj
          [("kind", JsonValue.str "message_reaction_increased"),
            ("value", JsonValue.obj [("id", JsonValue.str "m1"), ("count", JsonValue.number 3)]),
            ("room_id", JsonValue.str "r1")]) := by
  refine ⟨rfl, ?_⟩
  obtain ⟨fields, hm, hf, _⟩ :=
    (message_wire_shape (fun _ => false) (subscribe (subscribe newRegistry "r1" 1 1) "r1" 2 2)
      reactionMessage).1 _ rfl
  rw [hm, hf]
  rfl

end Api
